import Mathlib

/-!
Verification of the experiment-navigator content-harvesting crawler.

This file gives a shallow embedding of the two fast/render extraction
pipelines of the repository (src/content_harvester.ts: `ContentHarvester`,
and the hybrid probe crawler `HybridCrawler` with `ParseUtils`), together
with the run-level statistics, and proves or refutes the frozen claims
about them.

Conventions:
- JS strings become Lean `String`; machine numbers that stay small
  (counters, lengths) become `Nat`; `Math.round` over a division is
  modelled exactly over `ℚ`.
- JS `undefined`-able strings become `Option String`; JS truthiness of a
  string (`!s`, `s || t`) is modelled explicitly (`none` and `some ""`
  are both falsy).
- Platform library functions that the source calls (the WHATWG `URL`
  class, the regex engine, `crypto` sha256, `JSON.parse`) are not part of
  the repository; they are modelled here by executable Lean functions
  restricted to the behaviour the source relies on, and each such model
  is marked in its doc comment.
- The crawl loop (crawlee) is modelled by explicit folds over the list of
  per-URL inputs; a per-URL input records what the network/extraction
  produced for that URL, including the possibility that the handler body
  raised an exception.
-/

namespace Spec2Proof

/-! ## Generic string and list utilities used by the source -/

/-- JS truthiness of an optional string: `none` and `some ""` are falsy. -/
def jsTruthy : Option String → Bool
  | none => false
  | some s => s ≠ ""

/-- JS falsiness of an optional string (`!doc.title`). -/
def jsFalsy (o : Option String) : Bool := ¬ jsTruthy o

/-- `x || undefined` over optional strings: keep only truthy values. -/
def optTruthy : Option String → Option String
  | none => none
  | some s => if s = "" then none else some s

/-- `a || b` for optional strings under JS truthiness. -/
def jsOr (a b : Option String) : Option String :=
  match optTruthy a with
  | some s => some s
  | none => optTruthy b

/-- `str.substring(0, maxLen)` guarded by a length test, from `truncate`. -/
def truncate (s : String) (maxLen : Nat) : String :=
  if s.length > maxLen then String.mk (s.toList.take maxLen) else s

/-- Split a character list at a predicate, returning the separated tokens
(including empty tokens between adjacent separators). -/
def splitByPred (p : Char → Bool) : List Char → List (List Char)
  | [] => [[]]
  | c :: cs =>
    let rest := splitByPred p cs
    if p c then [] :: rest
    else
      match rest with
      | [] => [[c]]
      | t :: ts => (c :: t) :: ts

/-- The non-empty whitespace-separated tokens of a string. -/
def wsTokens (s : String) : List (List Char) :=
  (splitByPred Char.isWhitespace s.toList).filter (fun t => t ≠ [])

/-- `text.replace(/\s+/g, ' ').trim()`, from `normalizeWhitespace`. -/
def normalizeWhitespace (s : String) : String :=
  String.intercalate " " ((wsTokens s).map String.mk)

/-- `text.split(/\s+/).filter(w => w.length > 0).length`. -/
def countWords (s : String) : Nat := (wsTokens s).length

/-- `String.prototype.trim`. -/
def jsTrim (s : String) : String :=
  String.mk (((s.toList.dropWhile Char.isWhitespace).reverse.dropWhile
    Char.isWhitespace).reverse)

/-- Does the first list start with the second one? -/
def leadsWith : List Char → List Char → Bool
  | _, [] => true
  | [], _ :: _ => false
  | a :: as', b :: bs => a = b && leadsWith as' bs

/-- First index at which `needle` occurs in `hay` (`String.indexOf`). -/
def charsFindIdx (hay needle : List Char) : Option Nat :=
  match hay with
  | [] => if needle = [] then some 0 else none
  | _ :: t =>
    if leadsWith hay needle then some 0
    else (charsFindIdx t needle).map (· + 1)

/-- `hay.indexOf(needle)` as an optional index. -/
def strFindIdx (hay needle : String) : Option Nat :=
  charsFindIdx hay.toList needle.toList

/-- Insertion model of the JS `Set`: keep the first occurrence of every
element, preserving insertion order (`[...new Set(xs)]`). -/
def jsDedupAux {α : Type} [DecidableEq α] : List α → List α → List α
  | _, [] => []
  | seen, x :: xs =>
    if x ∈ seen then jsDedupAux seen xs
    else x :: jsDedupAux (x :: seen) xs

/-- `[...new Set(xs)]`. -/
def jsDedup {α : Type} [DecidableEq α] (l : List α) : List α := jsDedupAux [] l

/-- Stable insertion for a descending sort by string length, modelling the
stable JS `sort((a, b) => b.length - a.length)`. -/
def insertByLen (x : String) : List String → List String
  | [] => [x]
  | y :: ys => if x.length > y.length then x :: y :: ys else y :: insertByLen x ys

/-- Stable descending sort by string length. -/
def sortByLenDesc (l : List String) : List String :=
  l.foldl (fun acc x => insertByLen x acc) []

/-- Model of `crypto.createHash('sha256').update(text).digest('hex')` from
`sha256` in content_harvester.ts.  The platform digest is not repository
code; the claims use only that it is a deterministic function of its input
string, which this executable stand-in (a 64-bit rolling hash rendered in
hex) provides. -/
def sha256 (s : String) : String :=
  let h : Nat := s.toList.foldl (fun a c => (a * 131 + c.toNat) % (2 ^ 64)) 5381
  String.mk (Nat.toDigits 16 h)

/-! ## Model of the WHATWG URL parser

The source resolves and classifies links through the platform `URL` class
(`new URL(url)`, `new URL(url, base)`, `.hostname`, `.hash = ''`,
`.href`).  That class is not repository code; this section models it,
restricted to the URL shapes the source exercises: absolute special
(http/https) URLs, opaque-scheme URLs (e.g. `mailto:`), protocol-relative,
path-absolute and path-relative references, and fragments.  Parsing fails
(the constructor throws) exactly when no valid scheme is present in an
absolute position, or a special scheme has an empty host. -/

/-- A parsed URL: scheme, host (empty for opaque schemes), the rest
(path plus query; opaque body for non-authority URLs), the fragment, and
whether the URL was written with an authority (`//`). -/
structure PUrl where
  scheme : String
  host : String
  rest : String
  frag : String
  auth : Bool
  deriving DecidableEq, Repr

/-- Split at the first occurrence of a character: part before, and the
part after it when present. -/
def splitAtCharFirst (c : Char) : List Char → List Char × Option (List Char)
  | [] => ([], none)
  | x :: xs =>
    if x = c then ([], some xs)
    else
      let (a, b) := splitAtCharFirst c xs
      (x :: a, b)

/-- A valid URL scheme: a letter followed by letters, digits, `+`, `-`, `.`. -/
def validScheme : List Char → Bool
  | [] => false
  | c :: cs =>
    c.isAlpha && cs.all (fun d => d.isAlpha || d.isDigit || d = '+' || d = '-' || d = '.')

/-- The special schemes whose URLs require a non-empty host. -/
def isSpecialScheme (s : String) : Bool := s = "http" || s = "https"

/-- Split a URL string at its first `#` into pre-fragment and fragment. -/
def splitFrag (s : String) : List Char × List Char :=
  let (pre, f) := splitAtCharFirst '#' s.toList
  (pre, f.getD [])

/-- Split pre-fragment chars at the scheme colon, keeping only valid schemes. -/
def splitScheme (pre : List Char) : Option (String × List Char) :=
  match splitAtCharFirst ':' pre with
  | (_, none) => none
  | (sch, some rest) =>
    if validScheme sch then some (String.mk (sch.map Char.toLower), rest) else none

/-- Parse an authority part `host[/path]` following `//`. -/
def parseAuthRest (hp : List Char) : String × String :=
  let host := hp.takeWhile (fun c => c ≠ '/' && c ≠ '?')
  let path := hp.dropWhile (fun c => c ≠ '/' && c ≠ '?')
  (String.mk (host.map Char.toLower), if path = [] then "/" else String.mk path)

/-- Model of `new URL(s)` (no base): `some` when the constructor succeeds. -/
def parseUrl (s : String) : Option PUrl :=
  let (pre, frag) := splitFrag s
  match splitScheme pre with
  | none => none
  | some (sch, rest) =>
    if leadsWith rest ['/', '/'] then
      let (host, path) := parseAuthRest (rest.drop 2)
      if isSpecialScheme sch && host = "" then none
      else some ⟨sch, host, path, String.mk frag, true⟩
    else some ⟨sch, "", String.mk rest, String.mk frag, false⟩

/-- The directory part of a path: everything up to and including the last
slash (used for resolving path-relative references). -/
def dirOf (path : String) : String :=
  String.mk ((path.toList.reverse.dropWhile (fun c => c ≠ '/')).reverse)

/-- Model of `new URL(href, base)` for an already-parsed base. -/
def resolveUrl (href : String) (b : PUrl) : Option PUrl :=
  match parseUrl href with
  | some u => some u
  | none =>
    let (pre, frag) := splitFrag href
    match splitScheme pre with
    | some _ => none
    | none =>
      if leadsWith pre ['/', '/'] then
        let (host, path) := parseAuthRest (pre.drop 2)
        if isSpecialScheme b.scheme && host = "" then none
        else some ⟨b.scheme, host, path, String.mk frag, true⟩
      else if leadsWith pre ['/'] then
        some ⟨b.scheme, b.host, String.mk pre, String.mk frag, b.auth⟩
      else if pre = [] then
        some ⟨b.scheme, b.host, b.rest, String.mk frag, b.auth⟩
      else
        some ⟨b.scheme, b.host, dirOf b.rest ++ String.mk pre, String.mk frag, b.auth⟩

/-- Model of `.href` serialization after `.hash = ''` (fragment dropped). -/
def serializeNoFrag (u : PUrl) : String :=
  u.scheme ++ (if u.auth then "://" ++ u.host else ":") ++ u.rest

/-- `extractDomain` from content_harvester.ts: the hostname of a parsed
URL, or `''` when the constructor throws. -/
def extractDomain (url : String) : String :=
  match parseUrl url with
  | some u => u.host
  | none => ""

/-- `normalizeUrl` from content_harvester.ts: resolve `url` against
`baseUrl`, drop the fragment and serialize; on any parse failure return
the input unchanged. -/
def normalizeUrl (url baseUrl : String) : String :=
  match parseUrl baseUrl with
  | none => url
  | some b =>
    match resolveUrl url b with
    | none => url
    | some u => serializeNoFrag u

/-! ## Contact extraction (emails, phones) -/

/-- Characters the email pattern can consume. -/
def emailChar (c : Char) : Bool :=
  c.isAlphanum || c = '.' || c = '_' || c = '%' || c = '+' || c = '-' || c = '@'

/-- Model of `text.match(emailRegex) || []` for the source's pattern
matching email-shaped substrings.  The regex engine is platform code; this
executable stand-in returns the maximal email-character runs that contain
an `@`.  The claims about `extractEmails` depend only on the
deduplication and length filtering applied afterwards, which hold for any
match list. -/
def emailMatches (text : String) : List String :=
  (((splitByPred (fun c => ¬ emailChar c) text.toList).filter
    (fun t => t ≠ [] && t.contains '@')).map String.mk)

/-- `extractEmails` from content_harvester.ts:
`[...new Set(matches)].filter(e => e.length < 100)`. -/
def extractEmails (text : String) : List String :=
  (jsDedup (emailMatches text)).filter (fun e => e.length < 100)

/-- Characters the phone pattern can consume. -/
def phoneChar (c : Char) : Bool :=
  c.isDigit || c = '+' || c = '-' || c = '.' || c = ' ' || c = '(' || c = ')'

/-- Model of `text.match(phoneRegex) || []` for the source's phone-like
pattern (platform regex engine): maximal phone-character runs containing
at least five digits.  As with emails, the claims depend only on the
deduplication and the cap applied afterwards. -/
def phoneMatches (text : String) : List String :=
  (((splitByPred (fun c => ¬ phoneChar c) text.toList).filter
    (fun t => (t.filter Char.isDigit).length ≥ 5)).map String.mk)

/-- `extractPhones` from content_harvester.ts:
`[...new Set(matches)].slice(0, 20)`. -/
def extractPhones (text : String) : List String :=
  (jsDedup (phoneMatches text)).take 20

/-! ## Link extraction -/

/-- The result shape of `extractLinks` (the `links` facet of a document). -/
structure LinksResult where
  internal : List String
  external : List String
  canonicalized : Bool
  deriving DecidableEq, Repr

/-- The per-anchor classification loop of `extractLinks` (Cheerio path):
normalize each href, look at its domain, push to `internal` when it
matches the base domain, to `external` when it is non-empty, and drop it
otherwise. -/
def classifyLinks (hrefs : List String) (baseUrl : String) : List String × List String :=
  match hrefs with
  | [] => ([], [])
  | h :: t =>
    let n := normalizeUrl h baseUrl
    let d := extractDomain n
    let rest := classifyLinks t baseUrl
    if d = extractDomain baseUrl then (n :: rest.1, rest.2)
    else if d ≠ "" then (rest.1, n :: rest.2)
    else rest

/-- `extractLinks` from content_harvester.ts (Cheerio path): classify all
anchor hrefs, then dedupe each list and cap it at 200. -/
def extractLinks (hrefs : List String) (baseUrl : String) : LinksResult :=
  ⟨(jsDedup (classifyLinks hrefs baseUrl).1).take 200,
   (jsDedup (classifyLinks hrefs baseUrl).2).take 200, true⟩

/-! ## JSON-LD model and schema types -/

/-- Parsed JSON values (the output of the platform `JSON.parse`).  Parsed
JSON is always a finite acyclic tree, which this inductive captures. -/
inductive Json where
  | null : Json
  | bool (b : Bool) : Json
  | num (n : Int) : Json
  | str (s : String) : Json
  | arr (xs : List Json) : Json
  | obj (kvs : List (String × Json)) : Json

/-- Property lookup on a parsed JSON object (`record['@type']`). -/
def listLookup : List (String × Json) → String → Option Json
  | [], _ => none
  | (a, b) :: t, k => if a = k then some b else listLookup t k

mutual

/-- Model of `JSON.stringify` (platform), used only for the 150000-character
size cap in `extractJsonLd`; string escaping is not modelled. -/
def stringifyJson : Json → String
  | .null => "null"
  | .bool true => "true"
  | .bool false => "false"
  | .num n => toString n
  | .str s => "\"" ++ s ++ "\""
  | .arr xs => "[" ++ stringifyList xs ++ "]"
  | .obj kvs => "\x7b" ++ stringifyKvs kvs ++ "\x7d"

def stringifyList : List Json → String
  | [] => ""
  | [x] => stringifyJson x
  | x :: y :: t => stringifyJson x ++ "," ++ stringifyList (y :: t)

def stringifyKvs : List (String × Json) → String
  | [] => ""
  | [kv] => "\"" ++ kv.1 ++ "\":" ++ stringifyJson kv.2
  | kv :: kw :: t => "\"" ++ kv.1 ++ "\":" ++ stringifyJson kv.2 ++ "," ++ stringifyKvs (kw :: t)

end

/-- `extractJsonLd` (Cheerio path): each script's content is either a
parsed JSON value or `none` when `JSON.parse` threw; parse failures are
skipped, and parsed objects whose serialization exceeds 150000 characters
are dropped. -/
def extractJsonLd (scripts : List (Option Json)) : List Json :=
  match scripts with
  | [] => []
  | none :: t => extractJsonLd t
  | some j :: t =>
    if (stringifyJson j).length ≤ 150000 then j :: extractJsonLd t
    else extractJsonLd t

/-- The direct `@type` contribution of one JSON object:
`if (record['@type'] && typeof record['@type'] === 'string')` — note the
JS truthiness test, which skips an empty-string `@type`. -/
def typeTag (kvs : List (String × Json)) : List String :=
  match listLookup kvs "@type" with
  | some (.str s) => if s = "" then [] else [s]
  | _ => []

mutual

/-- The `traverse` recursion of `extractSchemaTypes`, in visit order:
on an object, first the direct `@type` check, then every property value;
on an array, every element. -/
def collectTypes : Json → List String
  | .null => []
  | .bool _ => []
  | .num _ => []
  | .str _ => []
  | .arr xs => collectTypesList xs
  | .obj kvs => typeTag kvs ++ collectTypesKvs kvs

def collectTypesList : List Json → List String
  | [] => []
  | x :: xs => collectTypes x ++ collectTypesList xs

def collectTypesKvs : List (String × Json) → List String
  | [] => []
  | kv :: kvs => collectTypes kv.2 ++ collectTypesKvs kvs

end

/-- `extractSchemaTypes` from content_harvester.ts: run `traverse` over
every parsed JSON-LD value, collecting `@type` strings into a `Set`
(first-occurrence order, no duplicates). -/
def extractSchemaTypes (jsonld : List Json) : List String :=
  jsDedup (collectTypesList jsonld)

/-! ## Evidence extraction -/

/-- Is a character in the price pattern's leading class `[\d\s.,]`? -/
def priceChar (c : Char) : Bool :=
  c.isDigit || c.isWhitespace || c = '.' || c = ','

/-- The currency suffixes of the price pattern, in alternation order. -/
def priceSuffixes : List (List Char) :=
  [['k', 'r'], ['s', 'e', 'k'], ['€'], ['$'], ['£'], [':', '-']]

/-- Try to match the price pattern at the head of `l` (case-insensitive):
a non-empty `[\d\s.,]+` run followed by a currency suffix. -/
def priceAt (l : List Char) : Option (List Char) :=
  let run := l.takeWhile priceChar
  if run = [] then none
  else
    let after := (l.drop run.length).map Char.toLower
    match priceSuffixes.find? (fun sfx => leadsWith after sfx) with
    | some sfx => some (run ++ sfx)
    | none => none

/-- Leftmost match of the price pattern (platform regex engine model; the
suffix characters are outside the leading class, so no backtracking into
the run is possible and a left-to-right scan is exact). -/
def priceScan : List Char → Option (List Char)
  | [] => none
  | c :: rest =>
    match priceAt (c :: rest) with
    | some m => some m
    | none => priceScan rest

/-- `findPriceLike` from content_harvester.ts: first price-like substring,
truncated to 400 characters. -/
def findPriceLike (text : String) : Option String :=
  (priceScan text.toList).map (fun m => truncate (String.mk m) 400)

/-- The terms/policy keywords probed by `extractEvidence`. -/
def evidenceKeywords : List String :=
  ["terms", "policy", "privacy", "cookie", "villkor", "integritet"]

/-- `allText.substring(max(0, i - 50), i + 200)` (JS clamps both ends). -/
def snippetAt (allText : String) (i : Nat) : String :=
  let a := i - 50
  String.mk ((allText.toList.drop a).take (i + 200 - a))

/-- The keyword part of `extractEvidence`: the first keyword (in list
order) found in the lowercased text yields one context snippet. -/
def firstKeywordSnippet (allText : String) : Option String :=
  let lower := String.mk (allText.toList.map Char.toLower)
  match evidenceKeywords.findSome? (fun kw =>
      (strFindIdx lower kw).map (fun i => (kw, i))) with
  | some (_, i) => some (truncate (normalizeWhitespace (snippetAt allText i)) 400)
  | none => none

/-- `extractEvidence` from content_harvester.ts: at most one snippet per
category (price, hero main text, keyword context), capped at 5. -/
def extractEvidence (mainText allText : String) : List String :=
  let ev :=
    (match findPriceLike allText with
     | some p => [p]
     | none => [])
    ++ (if mainText ≠ "" then [truncate mainText 400] else [])
    ++ (match firstKeywordSnippet allText with
        | some s => [s]
        | none => [])
  ev.take 5

/-! ## The document model and the fast-path (Cheerio) pipeline -/

/-- The `render_mode` enum of the ContentDoc schema: `'http' | 'js'`. -/
inductive RenderMode where
  | http : RenderMode
  | js : RenderMode
  deriving DecidableEq, Repr

/-- The `headings` facet. -/
structure Headings where
  h1 : List String
  h2 : List String
  h3 : List String
  deriving DecidableEq, Repr

/-- The `contacts` facet. -/
structure Contacts where
  emails : List String
  phones : List String
  deriving DecidableEq, Repr

/-- The `dom_stats` facet. -/
structure DomStats where
  words : Nat
  chars : Nat
  node_count : Nat
  deriving DecidableEq, Repr

/-- The canonical output record `ContentDoc` (Zod schema
`ContentDocSchema` in content_harvester.ts). -/
structure ContentDoc where
  url : String
  fetched_at : String
  http_status : Option Nat
  content_type : Option String
  canonical_url : Option String
  lang : Option String
  title : Option String
  meta_description : Option String
  og : List (String × String)
  meta : List (String × String)
  main_text : Option String
  all_text_excerpt : Option String
  headings : Headings
  text_blocks : List String
  jsonld : List Json
  schema_types : List String
  links : LinksResult
  contacts : Option Contacts
  evidence : List String
  dom_stats : DomStats
  html_hash : String
  render_mode : RenderMode

/-- What the static (Cheerio) DOM access surface yields for one fetched
page: the query results the fast-path extractors consume.  This is the
shallow embedding of the parse tree — each field is the value the
corresponding selector/attribute query returns on it. -/
structure HPage where
  status : Option Nat
  contentType : Option String
  titleText : String
  ogTitleAttr : Option String
  metaDescAttr : Option String
  ogDescAttr : Option String
  langAttr : Option String
  canonicalAttr : Option String
  ogPairs : List (String × String)
  metaPairs : List (String × String)
  readabilityText : Option String
  blocksMain : List String
  blocksPDiv : List String
  h1s : List String
  h2s : List String
  h3s : List String
  bodyText : String
  nodeCount : Nat
  anchorHrefs : List String
  footerText : String
  jsonldScripts : List (Option Json)
  bodyHtml : String

/-- JS object assignment `m[k] = v`: overwrite an existing key in place,
else append. -/
def assocSet : List (String × String) → String → String → List (String × String)
  | [], k, v => [(k, v)]
  | (a, b) :: t, k, v => if a = k then (a, v) :: t else (a, b) :: assocSet t k v

/-- The fixed allow-list of `extractMetadata`. -/
def metaKeys : List String :=
  ["keywords", "author", "viewport", "robots", "theme-color", "apple-mobile-web-app-title"]

/-- The `og` map of `extractMetadata`: every `og:`-meta with truthy
property and content. -/
def buildOgMap (pairs : List (String × String)) : List (String × String) :=
  pairs.foldl (fun m pc =>
    if pc.1 ≠ "" && pc.2 ≠ "" then assocSet m pc.1 pc.2 else m) []

/-- The allow-listed `meta` map of `extractMetadata`: only `metaKeys`
names, only while fewer than 20 keys are present. -/
def buildMetaMap (pairs : List (String × String)) : List (String × String) :=
  pairs.foldl (fun m nc =>
    if nc.1 ≠ "" && nc.2 ≠ "" && nc.1 ∈ metaKeys && m.length < 20
    then assocSet m nc.1 nc.2 else m) []

/-- `extractMainTextWithReadability` (platform Readability + JSDOM): the
page model carries the `textContent` Readability produced, or `none` when
parsing failed; a truthy result is whitespace-normalized. -/
def mainTextReadability (p : HPage) : Option String :=
  match p.readabilityText with
  | none => none
  | some tc => if tc = "" then none else some (normalizeWhitespace tc)

/-- `extractLargestTextBlocks`: normalized `main`/`article`/`[role=main]`
blocks over 100 chars, else normalized `p`/`div` blocks over 200 chars;
sorted descending by length, top 5, each truncated to 2000. -/
def largestTextBlocks (p : HPage) : List String :=
  let mains := (p.blocksMain.map normalizeWhitespace).filter (fun t => t.length > 100)
  let blocks :=
    if mains ≠ [] then mains
    else (p.blocksPDiv.map normalizeWhitespace).filter (fun t => t.length > 200)
  ((sortByLenDesc blocks).take 5).map (fun b => truncate b 2000)

/-- Cheerio-path headings: normalize each, keep truthy ones, dedupe. -/
def headingsHttp (l : List String) : List String :=
  jsDedup ((l.map normalizeWhitespace).filter (fun t => t ≠ ""))

/-- The whole Cheerio `requestHandler` document assembly of
`ContentHarvester` (content_harvester.ts, fast path), as a function of
the page model, the source URL and the `new Date().toISOString()` value. -/
def buildHttpDoc (url : String) (p : HPage) (t : String) : ContentDoc :=
  let title := jsOr (some (jsTrim p.titleText)) p.ogTitleAttr
  let meta_description := jsOr p.metaDescAttr p.ogDescAttr
  let mainBlocks :=
    match mainTextReadability p with
    | some mt => (some (truncate mt 10000), [])
    | none =>
      match largestTextBlocks p with
      | [] => (none, [])
      | b :: bs => (some (truncate b 10000), bs)
  let main_text := mainBlocks.1
  let all_text := truncate (normalizeWhitespace p.bodyText) 15000
  let jl := extractJsonLd p.jsonldScripts
  let contactText := p.footerText ++ " " ++ main_text.getD ""
  let emails := extractEmails contactText
  let phones := extractPhones contactText
  { url := url
    fetched_at := t
    http_status := p.status
    content_type := p.contentType
    canonical_url := optTruthy p.canonicalAttr
    lang := optTruthy p.langAttr
    title := title
    meta_description := meta_description
    og := buildOgMap p.ogPairs
    meta := buildMetaMap p.metaPairs
    main_text := main_text
    all_text_excerpt := some all_text
    headings := ⟨headingsHttp p.h1s, headingsHttp p.h2s, headingsHttp p.h3s⟩
    text_blocks := mainBlocks.2
    jsonld := jl
    schema_types := extractSchemaTypes jl
    links := extractLinks p.anchorHrefs url
    contacts := if emails ≠ [] || phones ≠ [] then some ⟨emails, phones⟩ else none
    evidence := extractEvidence (main_text.getD "") all_text
    dom_stats := ⟨countWords p.bodyText, p.bodyText.length, p.nodeCount⟩
    html_hash := sha256 p.bodyHtml
    render_mode := RenderMode.http }

/-- What one fast-path handler invocation had to work with: either the
fetched page, or the fact that the handler body raised an exception. -/
inductive FastInput where
  | exc : FastInput
  | page (p : HPage) : FastInput

/-- The outcome of the `ContentHarvester` Cheerio `requestHandler` for one
URL: the persisted document (if any) and whether the URL was pushed onto
`fallbackUrls`.  Mirrors the source: build the document; when
`!doc.title || !doc.main_text` defer without saving; on an exception push
to the fallback list; otherwise validate and save. -/
def httpHandle (url : String) (inp : FastInput) (t : String) : Option ContentDoc × Bool :=
  match inp with
  | .exc => (none, true)
  | .page p =>
    let doc := buildHttpDoc url p t
    if jsFalsy doc.title || jsFalsy doc.main_text then (none, true)
    else (some doc, false)

/-- The drained fast-path phase of `ContentHarvester.run`: process every
queued URL in order, accumulating persisted documents and the in-memory
`fallbackUrls` list (unbounded in this class). -/
def harvesterFastPass (items : List (String × FastInput)) (t : String) :
    List ContentDoc × List String :=
  match items with
  | [] => ([], [])
  | (u, inp) :: rest =>
    let r := httpHandle u inp t
    let acc := harvesterFastPass rest t
    ((match r.1 with
      | some d => d :: acc.1
      | none => acc.1),
     (if r.2 then u :: acc.2 else acc.2))

/-- A frontier request as re-enqueued for the fallback phase. -/
structure Request where
  url : String
  uniqueKey : String
  needsJs : Bool
  deriving DecidableEq, Repr

/-- The re-enqueue step after the fast-path barrier (both
`ContentHarvester.run` and `HybridCrawler.run`): each fallback URL is
added under the distinct unique key `url#js-fallback` with
`userData.needsJs = true`. -/
def reenqueueRequests (fallbackUrls : List String) : List Request :=
  fallbackUrls.map (fun u => ⟨u, u ++ "#js-fallback", true⟩)

/-! ## The render-fallback (Playwright) pipeline of ContentHarvester -/

/-- What the rendered (Playwright) DOM access surface yields for one page:
the query/evaluate results the fallback extractors consume. -/
structure RPage where
  status : Option Nat
  contentType : Option String
  pageTitle : String
  ogTitleAttr : Option String
  metaDescAttr : Option String
  ogDescAttr : Option String
  langAttr : Option String
  canonicalAttr : Option String
  ogPairs : List (String × String)
  metaPairs : List (String × String)
  readabilityText : Option String
  mainInnerText : String
  blockTexts : List String
  h1s : List String
  h2s : List String
  h3s : List String
  bodyText : String
  nodeCount : Nat
  anchorHrefs : List String
  footerText : String
  jsonldScripts : List (Option Json)
  bodyInnerHtml : String

/-- Playwright-path headings: keep truthy raw texts, normalize each,
dedupe (the truthiness test precedes normalization in this path). -/
def headingsJs (l : List String) : List String :=
  jsDedup ((l.filter (fun t => t ≠ "")).map normalizeWhitespace)

/-- Playwright-path readability (same helper over `page.content()`). -/
def mainTextReadabilityJs (q : RPage) : Option String :=
  match q.readabilityText with
  | none => none
  | some tc => if tc = "" then none else some (normalizeWhitespace tc)

/-- Playwright-path text blocks: raw `p`/`div` inner texts over 200 chars,
sorted descending by length, top 5, each cut to 2000 (no normalization in
this path). -/
def largestTextBlocksJs (q : RPage) : List String :=
  (((sortByLenDesc (q.blockTexts.filter (fun t => t.length > 200))).take 5).map
    (fun b => String.mk (b.toList.take 2000)))

/-- The whole Playwright `requestHandler` document assembly of
`ContentHarvester` (content_harvester.ts, render fallback): always tagged
`render_mode = 'js'`, no completeness gate. -/
def buildJsDoc (url : String) (q : RPage) (t : String) : ContentDoc :=
  let title := jsOr (some q.pageTitle) q.ogTitleAttr
  let meta_description := jsOr q.metaDescAttr q.ogDescAttr
  let mainBlocks :=
    match mainTextReadabilityJs q with
    | some mt => (some (truncate mt 10000), [])
    | none =>
      if q.mainInnerText ≠ "" then
        (some (truncate (normalizeWhitespace q.mainInnerText) 10000),
         largestTextBlocksJs q)
      else (none, [])
  let main_text := mainBlocks.1
  let all_text := truncate (normalizeWhitespace q.bodyText) 15000
  let jl := extractJsonLd q.jsonldScripts
  let contactText := q.footerText ++ " " ++ main_text.getD ""
  let emails := extractEmails contactText
  let phones := extractPhones contactText
  { url := url
    fetched_at := t
    http_status := q.status
    content_type := q.contentType
    canonical_url := optTruthy q.canonicalAttr
    lang := optTruthy q.langAttr
    title := title
    meta_description := meta_description
    og := buildOgMap q.ogPairs
    meta := buildMetaMap q.metaPairs
    main_text := main_text
    all_text_excerpt := some all_text
    headings := ⟨headingsJs q.h1s, headingsJs q.h2s, headingsJs q.h3s⟩
    text_blocks := mainBlocks.2
    jsonld := jl
    schema_types := extractSchemaTypes jl
    links := extractLinks q.anchorHrefs url
    contacts := if emails ≠ [] || phones ≠ [] then some ⟨emails, phones⟩ else none
    evidence := extractEvidence (main_text.getD "") all_text
    dom_stats := ⟨countWords q.bodyText, q.bodyText.length, q.nodeCount⟩
    html_hash := sha256 q.bodyInnerHtml
    render_mode := RenderMode.js }

/-- What one fallback handler invocation had to work with: the rendered
page, or the fact that the handler body raised an exception. -/
inductive RenderInput where
  | exc : RenderInput
  | page (q : RPage) : RenderInput

/-- The `ContentHarvester` Playwright `requestHandler` for one request:
requests without the `needsJs` marker return early; with the marker, a
completed extraction is always persisted (`render_mode = 'js'`, no
completeness check), while an exception is logged and persists nothing. -/
def renderHandle (req : Request) (inp : RenderInput) (t : String) : Option ContentDoc :=
  if req.needsJs then
    match inp with
    | .exc => none
    | .page q => some (buildJsDoc req.url q t)
  else none

/-! ## The hybrid probe crawler (index.ts: HybridCrawler, ParseUtils) -/

/-- `HybridCrawlerStats`. -/
structure HStats where
  seen : Nat
  http_ok : Nat
  fallback_enqueued : Nat
  js_processed : Nat
  js_rate : Nat
  deriving DecidableEq, Repr

/-- The zero-initialized stats object of `HybridCrawler`. -/
def initHStats : HStats := ⟨0, 0, 0, 0, 0⟩

/-- `ParseUtils.hasCriticalFields`:
`!!(data.serviceTitle && data.provider && data.priceText)`. -/
def hasCriticalFields (serviceTitle provider priceText : Option String) : Bool :=
  jsTruthy serviceTitle && jsTruthy provider && jsTruthy priceText

/-- What one hybrid Cheerio handler invocation produced for its URL: the
three extracted critical fields, or an exception from the handler body. -/
inductive HybridFastInput where
  | exc : HybridFastInput
  | fields (serviceTitle provider priceText : Option String) : HybridFastInput
  deriving DecidableEq, Repr

/-- One `HybridCrawler` Cheerio `requestHandler` invocation over the
stats and the `fallbackUrls` accumulator: `seen` is incremented first;
with all critical fields present `http_ok` is incremented; otherwise
`fallback_enqueued` is incremented and the URL is recorded only while the
fallback list holds fewer than 10 entries; a caught exception is only
logged — neither remaining counter moves and nothing is recorded. -/
def cheerioStep (acc : HStats × List String) (item : String × HybridFastInput) :
    HStats × List String :=
  let s := { acc.1 with seen := acc.1.seen + 1 }
  match item.2 with
  | .exc => (s, acc.2)
  | .fields st pv pr =>
    if hasCriticalFields st pv pr then
      ({ s with http_ok := s.http_ok + 1 }, acc.2)
    else
      ({ s with fallback_enqueued := s.fallback_enqueued + 1 },
       if acc.2.length < 10 then acc.2 ++ [item.1] else acc.2)

/-- The drained hybrid fast pass (`await this.cheerioCrawler.run()`):
fold the handler over every queued URL, starting from zeroed stats and an
empty fallback list. -/
def runCheerioPass (items : List (String × HybridFastInput)) : HStats × List String :=
  items.foldl cheerioStep (initHStats, [])

/-- The record the hybrid Playwright handler pushes to the Dataset. -/
structure CrawledData where
  url : String
  timestampISO : String
  serviceTitle : Option String
  provider : Option String
  priceText : Option String
  deriving DecidableEq, Repr

/-- What one hybrid Playwright handler invocation produced: the three
extracted fields, or an exception from the handler body. -/
inductive HybridJsInput where
  | exc : HybridJsInput
  | fields (serviceTitle provider priceText : Option String) : HybridJsInput
  deriving DecidableEq, Repr

/-- One `HybridCrawler` Playwright `requestHandler` invocation: requests
without the `needsJs` marker return early; with the marker `js_processed`
is incremented before the try-block, then a completed extraction is
pushed while an exception is only logged. -/
def hybridJsStep (s : HStats) (req : Request) (inp : HybridJsInput) (t : String) :
    HStats × Option CrawledData :=
  if req.needsJs then
    let s2 := { s with js_processed := s.js_processed + 1 }
    match inp with
    | .exc => (s2, none)
    | .fields st pv pr => (s2, some ⟨req.url, t, st, pv, pr⟩)
  else (s, none)

/-- `Math.round` (platform): round half toward positive infinity. -/
def mathRound (q : ℚ) : ℤ := Int.floor (q + 1 / 2)

/-- The final `js_rate` computation of `HybridCrawler.run`:
`denominator > 0 ? Math.round((js_processed / denominator) * 100) : 0`
with `denominator = http_ok + js_processed`. -/
def finalizeStats (s : HStats) : HStats :=
  let denominator := s.http_ok + s.js_processed
  { s with js_rate :=
      if denominator > 0 then
        (mathRound (((s.js_processed : ℚ) / (denominator : ℚ)) * 100)).toNat
      else 0 }

/-- Modelled from the spec: the derived rendered-rate,
`round(rendered / (accepted + rendered) × 100)`, or `0` if the
denominator is `0` (spec §3 RunStats; §8).  Written from the spec's words
to compare against `finalizeStats`. -/
def specRenderedRate (accepted rendered : Nat) : Nat :=
  if accepted + rendered > 0 then
    (mathRound (((rendered : ℚ) / ((accepted : ℚ) + (rendered : ℚ))) * 100)).toNat
  else 0

/-! ## Helper lemmas -/

theorem mem_jsDedupAux {α : Type} [DecidableEq α] (a : α) :
    ∀ (l seen : List α), a ∈ jsDedupAux seen l ↔ a ∈ l ∧ a ∉ seen := by
  intro l
  induction l with
  | nil => intro seen; simp [jsDedupAux]
  | cons x xs ih =>
    intro seen
    by_cases hx : x ∈ seen
    · rw [show jsDedupAux seen (x :: xs) = jsDedupAux seen xs from if_pos hx, ih]
      constructor
      · rintro ⟨h1, h2⟩
        exact ⟨List.mem_cons_of_mem _ h1, h2⟩
      · rintro ⟨h1, h2⟩
        rcases List.mem_cons.mp h1 with rfl | h
        · exact absurd hx h2
        · exact ⟨h, h2⟩
    · rw [show jsDedupAux seen (x :: xs) = x :: jsDedupAux (x :: seen) xs from if_neg hx]
      by_cases hax : a = x
      · subst hax
        simp [hx]
      · constructor
        · intro h1
          rcases List.mem_cons.mp h1 with rfl | h1
          · exact absurd rfl hax
          · obtain ⟨ha, hns⟩ := (ih (x :: seen)).mp h1
            exact ⟨List.mem_cons_of_mem _ ha, fun hs => hns (List.mem_cons_of_mem _ hs)⟩
        · rintro ⟨h1, h2⟩
          rcases List.mem_cons.mp h1 with rfl | h1
          · exact absurd rfl hax
          · refine List.mem_cons_of_mem _ ((ih (x :: seen)).mpr ⟨h1, fun hs => ?_⟩)
            rcases List.mem_cons.mp hs with rfl | hs2
            · exact hax rfl
            · exact h2 hs2

theorem nodup_jsDedupAux {α : Type} [DecidableEq α] :
    ∀ (l seen : List α), (jsDedupAux seen l).Nodup := by
  intro l
  induction l with
  | nil => intro seen; simp [jsDedupAux]
  | cons x xs ih =>
    intro seen
    by_cases hx : x ∈ seen
    · rw [show jsDedupAux seen (x :: xs) = jsDedupAux seen xs from if_pos hx]
      exact ih seen
    · rw [show jsDedupAux seen (x :: xs) = x :: jsDedupAux (x :: seen) xs from if_neg hx]
      refine List.nodup_cons.mpr ⟨fun hmem => ?_, ih _⟩
      exact ((mem_jsDedupAux x xs (x :: seen)).mp hmem).2 (List.mem_cons_self x seen)

theorem mem_jsDedup {α : Type} [DecidableEq α] (a : α) (l : List α) :
    a ∈ jsDedup l ↔ a ∈ l := by
  simp [jsDedup, mem_jsDedupAux]

theorem nodup_jsDedup {α : Type} [DecidableEq α] (l : List α) : (jsDedup l).Nodup :=
  nodup_jsDedupAux l []

theorem mem_classifyLinks_internal :
    ∀ (hrefs : List String) (baseUrl u : String),
      u ∈ (classifyLinks hrefs baseUrl).1 → extractDomain u = extractDomain baseUrl := by
  intro hrefs
  induction hrefs with
  | nil => intro b u h; simp [classifyLinks] at h
  | cons h t ih =>
    intro b u hu
    simp only [classifyLinks] at hu
    by_cases h1 : extractDomain (normalizeUrl h b) = extractDomain b
    · rw [if_pos h1] at hu
      rcases List.mem_cons.mp hu with rfl | hu2
      · exact h1
      · exact ih b u hu2
    · rw [if_neg h1] at hu
      by_cases h2 : extractDomain (normalizeUrl h b) ≠ ""
      · rw [if_pos h2] at hu
        exact ih b u hu
      · rw [if_neg h2] at hu
        exact ih b u hu

theorem mem_classifyLinks_external :
    ∀ (hrefs : List String) (baseUrl u : String),
      u ∈ (classifyLinks hrefs baseUrl).2 →
      extractDomain u ≠ extractDomain baseUrl ∧ extractDomain u ≠ "" := by
  intro hrefs
  induction hrefs with
  | nil => intro b u h; simp [classifyLinks] at h
  | cons h t ih =>
    intro b u hu
    simp only [classifyLinks] at hu
    by_cases h1 : extractDomain (normalizeUrl h b) = extractDomain b
    · rw [if_pos h1] at hu
      exact ih b u hu
    · rw [if_neg h1] at hu
      by_cases h2 : extractDomain (normalizeUrl h b) ≠ ""
      · rw [if_pos h2] at hu
        rcases List.mem_cons.mp hu with rfl | hu2
        · exact ⟨h1, h2⟩
        · exact ih b u hu2
      · rw [if_neg h2] at hu
        exact ih b u hu

/-- A string `s` occurs as an `@type` value somewhere inside a parsed
JSON value (the specification-level meaning of the `@type` walk). -/
inductive IsTypeIn (s : String) : Json → Prop
  | here (kvs : List (String × Json)) :
      listLookup kvs "@type" = some (Json.str s) → IsTypeIn s (Json.obj kvs)
  | inObj (kvs : List (String × Json)) (kv : String × Json) :
      kv ∈ kvs → IsTypeIn s kv.2 → IsTypeIn s (Json.obj kvs)
  | inArr (xs : List Json) (j : Json) :
      j ∈ xs → IsTypeIn s j → IsTypeIn s (Json.arr xs)

theorem mem_collectTypesList (s : String) :
    ∀ xs : List Json, s ∈ collectTypesList xs ↔ ∃ j ∈ xs, s ∈ collectTypes j := by
  intro xs
  induction xs with
  | nil => simp [collectTypesList]
  | cons x t ih =>
    rw [show collectTypesList (x :: t) = collectTypes x ++ collectTypesList t from rfl,
      List.mem_append, ih]
    constructor
    · rintro (h | ⟨j, hj, hs⟩)
      · exact ⟨x, List.mem_cons_self _ _, h⟩
      · exact ⟨j, List.mem_cons_of_mem _ hj, hs⟩
    · rintro ⟨j, hj, hs⟩
      rcases List.mem_cons.mp hj with rfl | hj2
      · exact Or.inl hs
      · exact Or.inr ⟨j, hj2, hs⟩

theorem mem_collectTypesKvs (s : String) :
    ∀ kvs : List (String × Json),
      s ∈ collectTypesKvs kvs ↔ ∃ kv ∈ kvs, s ∈ collectTypes kv.2 := by
  intro kvs
  induction kvs with
  | nil => simp [collectTypesKvs]
  | cons kv t ih =>
    rw [show collectTypesKvs (kv :: t) = collectTypes kv.2 ++ collectTypesKvs t from rfl,
      List.mem_append, ih]
    constructor
    · rintro (h | ⟨kw, hk, hs⟩)
      · exact ⟨kv, List.mem_cons_self _ _, h⟩
      · exact ⟨kw, List.mem_cons_of_mem _ hk, hs⟩
    · rintro ⟨kw, hk, hs⟩
      rcases List.mem_cons.mp hk with rfl | hk2
      · exact Or.inl hs
      · exact Or.inr ⟨kw, hk2, hs⟩

theorem mem_typeTag (s : String) (kvs : List (String × Json)) :
    s ∈ typeTag kvs ↔ s ≠ "" ∧ listLookup kvs "@type" = some (Json.str s) := by
  unfold typeTag
  rcases h : listLookup kvs "@type" with _ | j
  · constructor
    · intro hs
      exact absurd hs (List.not_mem_nil s)
    · rintro ⟨-, heq⟩
      simp at heq
  · cases j with
    | str s2 =>
      show s ∈ (if s2 = "" then [] else [s2]) ↔
        s ≠ "" ∧ some (Json.str s2) = some (Json.str s)
      by_cases h2 : s2 = ""
      · subst h2
        rw [if_pos rfl]
        constructor
        · intro hs
          exact absurd hs (List.not_mem_nil s)
        · rintro ⟨hne, heq⟩
          injection heq with heq2
          injection heq2 with heq3
          exact (hne heq3.symm).elim
      · rw [if_neg h2]
        constructor
        · intro hs
          have hss : s = s2 := List.mem_singleton.mp hs
          subst hss
          exact ⟨h2, rfl⟩
        · rintro ⟨hne, heq⟩
          injection heq with heq2
          injection heq2 with heq3
          subst heq3
          exact List.mem_singleton.mpr rfl
    | null =>
      constructor
      · intro hs
        exact absurd hs (List.not_mem_nil s)
      · rintro ⟨-, heq⟩
        simp at heq
    | bool b =>
      constructor
      · intro hs
        exact absurd hs (List.not_mem_nil s)
      · rintro ⟨-, heq⟩
        simp at heq
    | num n =>
      constructor
      · intro hs
        exact absurd hs (List.not_mem_nil s)
      · rintro ⟨-, heq⟩
        simp at heq
    | arr xs =>
      constructor
      · intro hs
        exact absurd hs (List.not_mem_nil s)
      · rintro ⟨-, heq⟩
        simp at heq
    | obj kvs2 =>
      constructor
      · intro hs
        exact absurd hs (List.not_mem_nil s)
      · rintro ⟨-, heq⟩
        simp at heq

theorem sizeOf_snd_lt {kv : String × Json} : sizeOf kv.2 < sizeOf kv := by
  rcases kv with ⟨a, b⟩
  simp

theorem mem_collectTypes_iff (s : String) :
    ∀ (n : Nat) (j : Json), sizeOf j ≤ n →
      (s ∈ collectTypes j ↔ s ≠ "" ∧ IsTypeIn s j) := by
  intro n
  induction n with
  | zero =>
    intro j hj
    exfalso
    cases j <;> simp at hj
  | succ n ih =>
    intro j hj
    cases j with
    | null =>
      constructor
      · intro h; simp [collectTypes] at h
      · rintro ⟨-, h⟩; cases h
    | bool b =>
      constructor
      · intro h; simp [collectTypes] at h
      · rintro ⟨-, h⟩; cases h
    | num m =>
      constructor
      · intro h; simp [collectTypes] at h
      · rintro ⟨-, h⟩; cases h
    | str s2 =>
      constructor
      · intro h; simp [collectTypes] at h
      · rintro ⟨-, h⟩; cases h
    | arr xs =>
      have hsz : sizeOf (Json.arr xs) = 1 + sizeOf xs := by simp
      rw [show collectTypes (Json.arr xs) = collectTypesList xs from rfl,
        mem_collectTypesList]
      constructor
      · rintro ⟨j, hjx, hs⟩
        have hlt : sizeOf j < sizeOf xs := List.sizeOf_lt_of_mem hjx
        obtain ⟨hne, hin⟩ := (ih j (by omega)).mp hs
        exact ⟨hne, IsTypeIn.inArr xs j hjx hin⟩
      · rintro ⟨hne, hin⟩
        cases hin with
        | inArr xs j hjx hin2 =>
          have hlt : sizeOf j < sizeOf xs := List.sizeOf_lt_of_mem hjx
          exact ⟨j, hjx, (ih j (by omega)).mpr ⟨hne, hin2⟩⟩
    | obj kvs =>
      have hsz : sizeOf (Json.obj kvs) = 1 + sizeOf kvs := by simp
      rw [show collectTypes (Json.obj kvs) = typeTag kvs ++ collectTypesKvs kvs from rfl,
        List.mem_append, mem_typeTag, mem_collectTypesKvs]
      constructor
      · rintro (⟨hne, hlook⟩ | ⟨kv, hk, hs⟩)
        · exact ⟨hne, IsTypeIn.here kvs hlook⟩
        · have hlt : sizeOf kv < sizeOf kvs := List.sizeOf_lt_of_mem hk
          have hlt2 : sizeOf kv.2 < sizeOf kv := sizeOf_snd_lt
          obtain ⟨hne, hin⟩ := (ih kv.2 (by omega)).mp hs
          exact ⟨hne, IsTypeIn.inObj kvs kv hk hin⟩
      · rintro ⟨hne, hin⟩
        cases hin with
        | here _ hlook => exact Or.inl ⟨hne, hlook⟩
        | inObj _ kv hk hin2 =>
          have hlt : sizeOf kv < sizeOf kvs := List.sizeOf_lt_of_mem hk
          have hlt2 : sizeOf kv.2 < sizeOf kv := sizeOf_snd_lt
          exact Or.inr ⟨kv, hk, (ih kv.2 (by omega)).mpr ⟨hne, hin2⟩⟩

theorem mem_extractSchemaTypes (s : String) (jsonld : List Json) :
    s ∈ extractSchemaTypes jsonld ↔ s ≠ "" ∧ ∃ j ∈ jsonld, IsTypeIn s j := by
  rw [show extractSchemaTypes jsonld = jsDedup (collectTypesList jsonld) from rfl,
    mem_jsDedup, mem_collectTypesList]
  constructor
  · rintro ⟨j, hj, hs⟩
    obtain ⟨hne, hin⟩ := (mem_collectTypes_iff s (sizeOf j) j le_rfl).mp hs
    exact ⟨hne, j, hj, hin⟩
  · rintro ⟨hne, j, hj, hin⟩
    exact ⟨j, hj, (mem_collectTypes_iff s (sizeOf j) j le_rfl).mpr ⟨hne, hin⟩⟩

/-- The fast-pass fold of the hybrid crawler preserves
`http_ok + fallback_enqueued = seen` as long as no handler raised. -/
theorem cheerioFold_invariant :
    ∀ (items : List (String × HybridFastInput)) (acc : HStats × List String),
      (∀ x ∈ items, x.2 ≠ HybridFastInput.exc) →
      acc.1.http_ok + acc.1.fallback_enqueued = acc.1.seen →
      ((items.foldl cheerioStep acc).1.http_ok +
        (items.foldl cheerioStep acc).1.fallback_enqueued =
        (items.foldl cheerioStep acc).1.seen) := by
  intro items
  induction items with
  | nil => intro acc _ h; simpa using h
  | cons it rest ih =>
    intro acc hnx h
    rw [List.foldl_cons]
    refine ih _ (fun x hx => hnx x (List.mem_cons_of_mem _ hx)) ?_
    have hit : it.2 ≠ HybridFastInput.exc := hnx it (List.mem_cons_self _ _)
    rcases it with ⟨u, inp⟩
    cases inp with
    | exc => exact absurd rfl hit
    | fields st pv pr =>
      by_cases hc : hasCriticalFields st pv pr
      · simp [cheerioStep, hc]
        omega
      · simp [cheerioStep, hc]
        omega

/-- In the ContentHarvester fast pass, a URL whose handler raised ends up
on the fallback list. -/
theorem harvester_exc_mem_fallback :
    ∀ (items : List (String × FastInput)) (t : String) (u : String),
      (u, FastInput.exc) ∈ items → u ∈ (harvesterFastPass items t).2 := by
  intro items
  induction items with
  | nil => intro t u h; simp at h
  | cons it rest ih =>
    intro t u h
    rcases List.mem_cons.mp h with heq | h2
    · cases heq
      show u ∈ (if (httpHandle u FastInput.exc t).2 then
        u :: (harvesterFastPass rest t).2 else (harvesterFastPass rest t).2)
      exact List.mem_cons_self _ _
    · rcases it with ⟨v, inp⟩
      show u ∈ (if (httpHandle v inp t).2 then
        v :: (harvesterFastPass rest t).2 else (harvesterFastPass rest t).2)
      by_cases hp : (httpHandle v inp t).2
      · rw [if_pos hp]
        exact List.mem_cons_of_mem _ (ih t u h2)
      · rw [if_neg hp]
        exact ih t u h2

/-! ## Claims -/

/-- An all-empty rendered page, used to instantiate render-path theorems
at a concrete input. -/
def sampleRPage : RPage :=
  { status := none, contentType := none, pageTitle := "", ogTitleAttr := none,
    metaDescAttr := none, ogDescAttr := none, langAttr := none, canonicalAttr := none,
    ogPairs := [], metaPairs := [], readabilityText := none, mainInnerText := "",
    blockTexts := [], h1s := [], h2s := [], h3s := [], bodyText := "", nodeCount := 0,
    anchorHrefs := [], footerText := "", jsonldScripts := [], bodyInnerHtml := "" }

/-- C1 (amended): in the hybrid crawler, `http_ok + fallback_enqueued = seen`
holds at the fast-path barrier for every run in which every per-URL handler
invocation completed with an accept or defer outcome (no caught
exception). -/
theorem c1_fast_barrier_counters (items : List (String × HybridFastInput))
    (h : ∀ x ∈ items, x.2 ≠ HybridFastInput.exc) :
    (runCheerioPass items).1.http_ok + (runCheerioPass items).1.fallback_enqueued =
      (runCheerioPass items).1.seen :=
  cheerioFold_invariant items (initHStats, []) h rfl

/-- Witness for C1: a concrete two-URL run with one accept and one defer. -/
theorem c1_fast_barrier_counters_witness :
    (runCheerioPass
        [("https://a.example", HybridFastInput.fields (some "T") (some "P") (some "99 kr")),
         ("https://b.example", HybridFastInput.fields none none none)]).1.http_ok +
      (runCheerioPass
        [("https://a.example", HybridFastInput.fields (some "T") (some "P") (some "99 kr")),
         ("https://b.example", HybridFastInput.fields none none none)]).1.fallback_enqueued =
      (runCheerioPass
        [("https://a.example", HybridFastInput.fields (some "T") (some "P") (some "99 kr")),
         ("https://b.example", HybridFastInput.fields none none none)]).1.seen :=
  c1_fast_barrier_counters
    [("https://a.example", HybridFastInput.fields (some "T") (some "P") (some "99 kr")),
     ("https://b.example", HybridFastInput.fields none none none)]
    (by decide)

/-- Counterexample for C1 as stated: a run whose single URL ends in a
caught exception increments `seen` but neither `http_ok` nor
`fallback_enqueued`, so the invariant fails at the barrier. -/
theorem c1_counterexample :
    ¬ ((runCheerioPass [("https://a.example", HybridFastInput.exc)]).1.http_ok +
        (runCheerioPass [("https://a.example", HybridFastInput.exc)]).1.fallback_enqueued =
        (runCheerioPass [("https://a.example", HybridFastInput.exc)]).1.seen) := by
  decide

/-- C2 (amended): in the ContentHarvester fast path, a caught handler
exception persists nothing and pushes the URL onto the fallback list
(treated as a defer), both per handler invocation and across a whole
fast pass. -/
theorem c2_exception_defer :
    (∀ (url : String) (t : String), httpHandle url FastInput.exc t = (none, true)) ∧
    (∀ (items : List (String × FastInput)) (t : String) (u : String),
        (u, FastInput.exc) ∈ items → u ∈ (harvesterFastPass items t).2) :=
  ⟨fun _ _ => rfl, harvester_exc_mem_fallback⟩

/-- Witness for C2: a concrete one-URL fast pass whose handler raised. -/
theorem c2_exception_defer_witness :
    "https://a.example" ∈
      (harvesterFastPass [("https://a.example", FastInput.exc)] "2024-01-01").2 :=
  c2_exception_defer.2 [("https://a.example", FastInput.exc)] "2024-01-01"
    "https://a.example" (List.mem_singleton.mpr rfl)

/-- Counterexample for C2 as stated: in the hybrid crawler the catch only
logs — the URL is neither added to the fallback list nor counted, so it is
not treated as a defer there. -/
theorem c2_counterexample :
    ¬ ("https://a.example" ∈ (runCheerioPass [("https://a.example", HybridFastInput.exc)]).2) ∧
      (runCheerioPass [("https://a.example", HybridFastInput.exc)]).1.fallback_enqueued = 0 := by
  decide

/-- C3 (amended): in the ContentHarvester, a fast-path invocation that
defers persists nothing; every URL on the fallback list is re-enqueued
after the barrier under the distinct unique key `url#js-fallback` with the
needs-render marker; and a fallback invocation for such a request whose
extraction completes persists a document with `render_mode = 'js'`
regardless of field completeness. -/
theorem c3_defer_reenqueue_render :
    (∀ (url : String) (inp : FastInput) (t : String),
        (httpHandle url inp t).2 = true → (httpHandle url inp t).1 = none) ∧
    (∀ (fallbackUrls : List String) (u : String), u ∈ fallbackUrls →
        (⟨u, u ++ "#js-fallback", true⟩ : Request) ∈ reenqueueRequests fallbackUrls) ∧
    (∀ (u : String) (q : RPage) (t : String),
        renderHandle ⟨u, u ++ "#js-fallback", true⟩ (RenderInput.page q) t =
          some (buildJsDoc u q t) ∧
        (buildJsDoc u q t).render_mode = RenderMode.js) := by
  refine ⟨?_, ?_, ?_⟩
  · intro url inp t h
    cases inp with
    | exc => rfl
    | page p =>
      show (if jsFalsy (buildHttpDoc url p t).title || jsFalsy (buildHttpDoc url p t).main_text
        then ((none : Option ContentDoc), true)
        else (some (buildHttpDoc url p t), false)).1 = none
      by_cases hc : (jsFalsy (buildHttpDoc url p t).title ||
          jsFalsy (buildHttpDoc url p t).main_text) = true
      · rw [if_pos hc]
      · rw [if_neg hc]
        exfalso
        have h2 : (httpHandle url (FastInput.page p) t).2 = false := by
          show (if jsFalsy (buildHttpDoc url p t).title ||
              jsFalsy (buildHttpDoc url p t).main_text
            then ((none : Option ContentDoc), true)
            else (some (buildHttpDoc url p t), false)).2 = false
          rw [if_neg hc]
        rw [h] at h2
        exact absurd h2 (by simp)
  · intro fallbackUrls u hu
    exact List.mem_map_of_mem (fun v => (⟨v, v ++ "#js-fallback", true⟩ : Request)) hu
  · intro u q t
    exact ⟨rfl, rfl⟩

/-- Witness for C3: concrete defer (exception), re-enqueue and rendered
persistence. -/
theorem c3_defer_reenqueue_render_witness :
    (httpHandle "https://a.example" FastInput.exc "2024-01-01").1 = none ∧
    (⟨"https://a.example", "https://a.example" ++ "#js-fallback", true⟩ : Request) ∈
      reenqueueRequests ["https://a.example"] ∧
    renderHandle ⟨"https://a.example", "https://a.example" ++ "#js-fallback", true⟩
      (RenderInput.page sampleRPage) "2024-01-01" =
      some (buildJsDoc "https://a.example" sampleRPage "2024-01-01") :=
  ⟨c3_defer_reenqueue_render.1 "https://a.example" FastInput.exc "2024-01-01" rfl,
   c3_defer_reenqueue_render.2.1 ["https://a.example"] "https://a.example"
     (List.mem_singleton.mpr rfl),
   (c3_defer_reenqueue_render.2.2 "https://a.example" sampleRPage "2024-01-01").1⟩

/-- Counterexample for C3 as stated: in the hybrid crawler a run with 11
deferring URLs records only the first 10 on the fallback list, so the 11th
deferred URL is never re-enqueued for the fallback pipeline. -/
theorem c3_counterexample :
    (runCheerioPass ((List.range 11).map
        (fun i => ("https://u" ++ toString i ++ ".example",
          HybridFastInput.fields none none none)))).1.fallback_enqueued = 11 ∧
    ¬ ("https://u10.example" ∈
        (reenqueueRequests (runCheerioPass ((List.range 11).map
          (fun i => ("https://u" ++ toString i ++ ".example",
            HybridFastInput.fields none none none)))).2).map Request.url) := by
  decide

/-- C4 (amended): a fallback request carrying the needs-render marker
whose extraction completes is always persisted with `render_mode = 'js'`
and no completeness check, and the hybrid `js_processed` counter is
incremented for every marked request regardless of outcome; an extraction
exception persists nothing. -/
theorem c4_render_persist :
    (∀ (url : String) (q : RPage) (t : String),
        renderHandle ⟨url, url ++ "#js-fallback", true⟩ (RenderInput.page q) t =
          some (buildJsDoc url q t) ∧
        (buildJsDoc url q t).render_mode = RenderMode.js) ∧
    (∀ (s : HStats) (req : Request) (inp : HybridJsInput) (t : String),
        req.needsJs = true →
        (hybridJsStep s req inp t).1.js_processed = s.js_processed + 1) := by
  constructor
  · intro url q t
    exact ⟨rfl, rfl⟩
  · intro s req inp t h
    rcases req with ⟨ru, rk, rj⟩
    cases rj with
    | true =>
      cases inp with
      | exc => rfl
      | fields a b c => rfl
    | false => cases h

/-- Witness for C4: a marked request whose extraction raised still
increments `js_processed`. -/
theorem c4_render_persist_witness :
    (hybridJsStep initHStats
        ⟨"https://a.example", "https://a.example#js-fallback", true⟩
        HybridJsInput.exc "2024-01-01").1.js_processed =
      initHStats.js_processed + 1 :=
  c4_render_persist.2 initHStats
    ⟨"https://a.example", "https://a.example#js-fallback", true⟩
    HybridJsInput.exc "2024-01-01" rfl

/-- Counterexample for C4 as stated: a marked fallback request whose
handler raised persists no document at all. -/
theorem c4_counterexample :
    renderHandle ⟨"https://a.example", "https://a.example#js-fallback", true⟩
      RenderInput.exc "2024-01-01" = none := rfl

/-- C5: after both phases, the derived `js_rate` equals
`round(rendered / (accepted + rendered) × 100)` when the denominator is
positive and `0` otherwise, where `accepted = http_ok` and
`rendered = js_processed`. -/
theorem c5_js_rate (s : HStats) :
    (finalizeStats s).js_rate = specRenderedRate s.http_ok s.js_processed := by
  simp [finalizeStats, specRenderedRate, Nat.cast_add]

/-- C6 (amended): link extraction resolves each href against the base URL,
classifies a resolved link as internal exactly when its hostname equals the
base hostname and as external when its hostname is non-empty and differs,
drops links whose resolved URL has an empty hostname, dedupes preserving
first occurrence, and caps each list at 200; the spec's concrete example
holds. -/
theorem c6_links :
    (∀ (hrefs : List String) (baseUrl : String),
        (extractLinks hrefs baseUrl).internal.Nodup ∧
        (extractLinks hrefs baseUrl).external.Nodup ∧
        (extractLinks hrefs baseUrl).internal.length ≤ 200 ∧
        (extractLinks hrefs baseUrl).external.length ≤ 200 ∧
        (∀ u ∈ (extractLinks hrefs baseUrl).internal,
            extractDomain u = extractDomain baseUrl) ∧
        (∀ u ∈ (extractLinks hrefs baseUrl).external,
            extractDomain u ≠ extractDomain baseUrl ∧ extractDomain u ≠ "")) ∧
    extractLinks ["/about", "https://other.example/x"] "https://example.com/" =
      ⟨["https://example.com/about"], ["https://other.example/x"], true⟩ := by
  constructor
  · intro hrefs baseUrl
    refine ⟨?_, ?_, ?_, ?_, ?_, ?_⟩
    · exact List.Nodup.sublist (List.take_sublist _ _) (nodup_jsDedup _)
    · exact List.Nodup.sublist (List.take_sublist _ _) (nodup_jsDedup _)
    · exact List.length_take_le _ _
    · exact List.length_take_le _ _
    · intro u hu
      have h1 : u ∈ jsDedup (classifyLinks hrefs baseUrl).1 :=
        (List.take_sublist _ _).subset hu
      exact mem_classifyLinks_internal hrefs baseUrl u ((mem_jsDedup u _).mp h1)
    · intro u hu
      have h1 : u ∈ jsDedup (classifyLinks hrefs baseUrl).2 :=
        (List.take_sublist _ _).subset hu
      exact mem_classifyLinks_external hrefs baseUrl u ((mem_jsDedup u _).mp h1)
  · decide

/-- Witness for C6: the internal classification at the spec's example. -/
theorem c6_links_witness :
    extractDomain "https://example.com/about" = extractDomain "https://example.com/" :=
  (c6_links.1 ["/about"] "https://example.com/").2.2.2.2.1
    "https://example.com/about" (by decide)

/-- Counterexample for C6 as stated: a `mailto:` anchor on
`https://example.com/` resolves to a URL whose hostname (empty) differs
from the source hostname, so the claim classifies it as external, but the
code drops it — both output lists are empty. -/
theorem c6_counterexample :
    extractDomain (normalizeUrl "mailto:info@other.example" "https://example.com/") ≠
      extractDomain "https://example.com/" ∧
    (extractLinks ["mailto:info@other.example"] "https://example.com/").external = [] ∧
    (extractLinks ["mailto:info@other.example"] "https://example.com/").internal = [] := by
  decide

/-- C7: fast-path field extraction is a pure function of the parsed page,
with the timestamp flowing only into `fetched_at`: repeated extraction on
identical markup yields the identical fingerprint (the sha256 of the body
markup) and identical values for every non-timestamp field. -/
theorem c7_idempotent (url : String) (p : HPage) (t1 t2 : String) :
    (buildHttpDoc url p t1).html_hash = sha256 p.bodyHtml ∧
    (buildHttpDoc url p t1).html_hash = (buildHttpDoc url p t2).html_hash ∧
    buildHttpDoc url p t1 = { buildHttpDoc url p t2 with fetched_at := t1 } :=
  ⟨rfl, rfl, rfl⟩

/-- C8 (amended): the schema-type derivation terminates on every parsed
JSON-LD input (parsed JSON is a finite acyclic tree, so the recursion is
structural; the code carries no visited-set or depth-limit guard) and
returns, without duplicates, exactly the non-empty `@type` string values
occurring in the input — JS truthiness skips an empty-string `@type`. -/
theorem c8_schema_types (jsonld : List Json) :
    (extractSchemaTypes jsonld).Nodup ∧
    ∀ s : String, s ∈ extractSchemaTypes jsonld ↔
      s ≠ "" ∧ ∃ j ∈ jsonld, IsTypeIn s j :=
  ⟨nodup_jsDedup _, fun s => mem_extractSchemaTypes s jsonld⟩

/-- Counterexample for C8 as stated: the `@type` string value `""` is not
collected (`record['@type']` is falsy), so not every `@type` string value
reaches the output set. -/
theorem c8_counterexample :
    extractSchemaTypes [Json.obj [("@type", Json.str "")]] = [] := rfl

/-- C9: contact extraction over footer text concatenated with main text
yields a deduplicated email list with no match longer than 99 characters,
and a deduplicated phone list with at most 20 entries. -/
theorem c9_contacts (footer main : String) :
    (extractEmails (footer ++ " " ++ main)).Nodup ∧
    (∀ e ∈ extractEmails (footer ++ " " ++ main), e.length ≤ 99) ∧
    (extractPhones (footer ++ " " ++ main)).Nodup ∧
    (extractPhones (footer ++ " " ++ main)).length ≤ 20 := by
  refine ⟨?_, ?_, ?_, ?_⟩
  · exact List.Nodup.filter _ (nodup_jsDedup _)
  · intro e he
    have h1 := List.of_mem_filter he
    simp at h1
    omega
  · exact List.Nodup.sublist (List.take_sublist _ _) (nodup_jsDedup _)
  · exact List.length_take_le _ _

/-- Witness for C9: a concrete email and phone extraction. -/
theorem c9_contacts_witness :
    ("info@a.se" : String).length ≤ 99 ∧
    (extractPhones ("0701234567" ++ " " ++ "")).length ≤ 20 :=
  ⟨(c9_contacts "info@a.se" "").2.1 "info@a.se" (by decide),
   (c9_contacts "0701234567" "").2.2.2⟩

/-- C10: URL normalization is total at the link-extraction interface:
`normalizeUrl` returns its input unchanged whenever the base fails to
parse or the href fails to resolve, `extractDomain` returns `""` for every
unparseable URL, and a malformed href is simply dropped — it never aborts
link extraction. -/
theorem c10_normalize_total :
    (∀ (url baseUrl : String), parseUrl baseUrl = none → normalizeUrl url baseUrl = url) ∧
    (∀ (url baseUrl : String) (b : PUrl),
        parseUrl baseUrl = some b → resolveUrl url b = none →
        normalizeUrl url baseUrl = url) ∧
    (∀ url : String, parseUrl url = none → extractDomain url = "") ∧
    (∀ (hrefs : List String) (baseUrl bad : String),
        normalizeUrl bad baseUrl = bad → extractDomain bad = "" →
        extractDomain baseUrl ≠ "" →
        extractLinks (bad :: hrefs) baseUrl = extractLinks hrefs baseUrl) := by
  refine ⟨?_, ?_, ?_, ?_⟩
  · intro url baseUrl h
    unfold normalizeUrl
    rw [h]
  · intro url baseUrl b h1 h2
    unfold normalizeUrl
    rw [h1]
    show (match resolveUrl url b with
      | none => url
      | some u => serializeNoFrag u) = url
    rw [h2]
  · intro url h
    unfold extractDomain
    rw [h]
  · intro hrefs baseUrl bad h1 h2 h3
    have hc : classifyLinks (bad :: hrefs) baseUrl = classifyLinks hrefs baseUrl := by
      show (if extractDomain (normalizeUrl bad baseUrl) = extractDomain baseUrl
        then (normalizeUrl bad baseUrl :: (classifyLinks hrefs baseUrl).1,
          (classifyLinks hrefs baseUrl).2)
        else if extractDomain (normalizeUrl bad baseUrl) ≠ ""
        then ((classifyLinks hrefs baseUrl).1,
          normalizeUrl bad baseUrl :: (classifyLinks hrefs baseUrl).2)
        else classifyLinks hrefs baseUrl) = classifyLinks hrefs baseUrl
      rw [h1, h2]
      rw [if_neg (fun heq => h3 heq.symm)]
      rw [if_neg (fun hne => hne rfl)]
    show (⟨(jsDedup (classifyLinks (bad :: hrefs) baseUrl).1).take 200,
      (jsDedup (classifyLinks (bad :: hrefs) baseUrl).2).take 200, true⟩ : LinksResult) =
      ⟨(jsDedup (classifyLinks hrefs baseUrl).1).take 200,
        (jsDedup (classifyLinks hrefs baseUrl).2).take 200, true⟩
    rw [hc]

/-- Witness for C10: a malformed base, a malformed href against a valid
base, and the drop of a malformed href from link extraction. -/
theorem c10_normalize_total_witness :
    normalizeUrl "/x" "notaurl" = "/x" ∧
    normalizeUrl "http://" "https://example.com/" = "http://" ∧
    extractDomain "http://" = "" ∧
    extractLinks ["http://", "/about"] "https://example.com/" =
      extractLinks ["/about"] "https://example.com/" :=
  ⟨c10_normalize_total.1 "/x" "notaurl" (by decide),
   c10_normalize_total.2.1 "http://" "https://example.com/"
     ⟨"https", "example.com", "/", "", true⟩ (by decide) (by decide),
   c10_normalize_total.2.2.1 "http://" (by decide),
   c10_normalize_total.2.2.2 ["/about"] "https://example.com/" "http://"
     (by decide) (by decide) (by decide)⟩

end Spec2Proof
